import Mathlib

/-!
Verification development for the MCRO type-erasure and component-composition
core (`Mcro::TypeInfo::FType`, `Mcro::Any::FAny`,
`Mcro::Composition::IComposable`).

The C++ sources are shallowly embedded:

* `FType` models `Mcro/TypeInfo.h`: a type identity with a 64-bit hash and a
  fixed-capacity (64) list of base-type hashes.  The template constructor's
  compile-time flattening of the explicit base list (`ForEachExplicitBase`)
  is taken as an input list of hashes; the constructor body's bounded capture
  loop is modelled by `FType.ofBases`.
* `FAny` models `Mcro/Any.h` / `Any.cpp`: `Storage` (an owning pointer,
  modelled as an optional address into an explicit heap `FHeap`), `MainType`,
  the `Destruct` and `CopyConstruct` closures (modelled by the data they
  capture: the concrete type's hash and, for copy, whether the bound
  copy-construct facility can produce a copy, i.e. whether the payload type
  is copy-constructible or a custom facility was supplied), and `ValidTypes`
  (a `TSet<FType>`, membership by hash, modelled as a duplicate-free list).
* `IComposable` models `Mcro/Composition.h` / `Composition.cpp`: the three
  `TMap`s (association lists with unique keys), `LastAddedComponentHash`,
  and the copy/move logistics closures (modelled by their captured data:
  concrete type hash, copy/move awareness, and the captured
  `unboxedComponent` pointer).  The `OnComponentAdded` hook and the
  `OnCreatedAt` callback are not involved in any claim and are left out.

Fatal assertions (`ASSERT_CRASH`, `checkf`) are modelled by `Except FCrash`;
the crash value records which assertion fired and the type hash its message
names.  Component callbacks (`OnCopiedAt`, `OnMovedAt`) are modelled as an
emitted event trace `List FEvent` so that "hook runs exactly once with these
arguments" is a statement about the trace.
-/

/-- Heap payload object: the concrete type's hash plus copy/move counters so
that theorems can speak about which payload constructors ran. -/
structure FPayload where
  typeHash : Nat
  copyCount : Nat
  moveCount : Nat
deriving DecidableEq

/-- The heap: address-indexed storage (address = list index, `none` = freed).
Models raw owning pointers held by `FAny::Storage`. -/
structure FHeap where
  mem : List (Option FPayload)
deriving DecidableEq

/-- Dereference an address (null / dangling reads give `none`). -/
def FHeap.read (h : FHeap) (a : Nat) : Option FPayload :=
  (h.mem.getD a none)

/-- Allocate a fresh object, returning its address (the old length). -/
def FHeap.alloc (h : FHeap) (o : FPayload) : Nat × FHeap :=
  (h.mem.length, ⟨h.mem ++ [some o]⟩)

/-- Maximum number of recorded base hashes, `FType::MaxBaseCount` in
`Mcro/TypeInfo.h`. -/
def MaxBaseCount : Nat := 64

/-- `Mcro::TypeInfo::FType`: type identity.  `Name` is display-only and
carries no semantics, so it is omitted; `BaseTypeHashes`/`BaseCount` (the
fixed `FTypeHash[MaxBaseCount]` array plus its fill count) are modelled as
the list of recorded hashes. -/
structure FType where
  Hash : Nat
  BaseTypeHashes : List Nat
deriving DecidableEq

/-- The default `constexpr FType()` constructor: hash 0, no bases. -/
def FType.invalid : FType := ⟨0, []⟩

/-- `FType::IsValid`. -/
def FType.IsValid (t : FType) : Bool := t.Hash != 0

/-- The `FType(TTag<T>)` constructor body: given the flattened explicit base
hash list (produced at compile time by `ForEachExplicitBase<T>`), record the
base hashes one by one, returning early (dropping the entry) once
`BaseCount >= MaxBaseCount`. -/
def FType.ofBases (h : Nat) (bases : List Nat) : FType :=
  { Hash := h
    BaseTypeHashes :=
      bases.foldl (fun acc b => if MaxBaseCount ≤ acc.length then acc else acc ++ [b]) [] }

/-- `FType::IsCompatibleWith`: hashes equal, or this hash among the other's
base hashes, or the other's hash among this one's base hashes. -/
def FType.IsCompatibleWith (a other : FType) : Bool :=
  if a.Hash == other.Hash then true
  else if other.BaseTypeHashes.any (fun base => base == a.Hash) then true
  else if a.BaseTypeHashes.any (fun base => base == other.Hash) then true
  else false

/-- Crash outcomes of the fatal assertions in the embedded code, each
carrying the type hash its message names (when it names one). -/
inductive FCrash where
  /-- `ASSERT_CRASH(newComponent)` in `IComposable::AddComponent`. -/
  | nullComponent
  /-- `ASSERT_CRASH(!HasExactComponent..)` in `IComposable::AddComponent`,
  message naming `MainType`. -/
  | duplicateComponent (typeHash : Nat)
  /-- `checkf(self->Storage, ..)` in the `FAny::CopyConstruct` closure,
  message naming `T` ("Copy constructor failed for %s. Is it deleted?"). -/
  | copyConstructFailed (typeHash : Nat)
  /-- `ASSERT_CRASH(targetComponent, ..)` in the logistics `Copy` closure,
  message naming `MainType`. -/
  | copyTargetIncompatible (typeHash : Nat)
  /-- Invoking an unbound `TFunction` (fatal check inside Unreal's
  `TFunction::operator()`). -/
  | unboundClosureCall
  /-- Dereferencing a null/dangling pointer (undefined behaviour in C++,
  made an explicit crash here). -/
  | invalidDereference
  /-- `TMap::operator[]` on a missing key (fatal check inside `TMap`). -/
  | missingMapKey (key : Nat)
deriving DecidableEq

/-- Component callback invocations, recorded so theorems can count them and
inspect their arguments.  `receiver` is the heap address of the object the
method is invoked on. -/
inductive FEvent where
  /-- `component->OnCopiedAt(newOwner, source)` where `source` is the heap
  address of the component passed as second argument. -/
  | copiedAt (receiver : Nat) (newOwner : Nat) (source : Nat)
  /-- `component->OnMovedAt(newOwner)`. -/
  | movedAt (receiver : Nat) (newOwner : Nat)
deriving DecidableEq

/-- Data captured by the `FAny::CopyConstruct` closure built in the
`FAny(T*, facilities)` template constructor: the concrete type `T` (its
hash) and whether `facilities.CopyConstruct` produces a copy (`new T(..)`)
or returns null (the default facility for a non-copy-constructible `T`). -/
structure FBoundCopy where
  typeHash : Nat
  canCopy : Bool
deriving DecidableEq

/-- `Mcro::Any::FAny`.  `Destruct`/`CopyConstruct` are `none` when the
corresponding `TFunction` is unbound, `some` holding the closure's captured
data otherwise (`Destruct` captures only the concrete type, recorded as its
hash). -/
structure FAny where
  Storage : Option Nat
  MainType : FType
  Destruct : Option Nat
  CopyConstruct : Option FBoundCopy
  ValidTypes : List FType
deriving DecidableEq

/-- The default `FAny()` state (also the post-`Reset` state). -/
def FAny.empty : FAny := ⟨none, FType.invalid, none, none, []⟩

/-- `FAny::IsValid`: whether `Storage` is non-null. -/
def FAny.IsValid (a : FAny) : Bool := a.Storage.isSome

/-- `FAny::AddAlias`: add to `ValidTypes` unless already present
(`TSet` membership, i.e. by hash). -/
def FAny.AddAlias (a : FAny) (alias0 : FType) : FAny :=
  if a.ValidTypes.any (fun v => v.Hash == alias0.Hash) then a
  else { a with ValidTypes := a.ValidTypes ++ [alias0] }

/-- The `FAny(T* newObject, facilities)` template constructor: take
ownership of the object at `addr`, bind both closures to `T` (= `t`) and
the facilities, seed `ValidTypes` with `MainType`, then register every
explicitly declared base of `T` as an alias. -/
def FAny.wrap (addr : Nat) (t : FType) (canCopy : Bool) (bases : List FType) : FAny :=
  bases.foldl FAny.AddAlias
    { Storage := some addr
      MainType := t
      Destruct := some t.Hash
      CopyConstruct := some ⟨t.Hash, canCopy⟩
      ValidTypes := [t] }

/-- `FAny::TryGet` keyed by a raw type hash: membership test against
`ValidTypes`, returning `Storage` cast to the requested type on success and
null on a miss. -/
def FAny.TryGetHash (a : FAny) (h : Nat) : Option Nat :=
  if a.ValidTypes.any (fun v => v.Hash == h) then a.Storage else none

/-- `FAny::TryGet<T>`: `TryGetHash` at `T`'s identity hash. -/
def FAny.TryGet (a : FAny) (t : FType) : Option Nat :=
  a.TryGetHash t.Hash

/-- `FAny::FAny(FAny const& other)` (Any.cpp): default-construct, then if
`other.IsValid()` invoke `other.CopyConstruct(this, other)`.  The closure
copy-constructs the payload through the captured facility (crashing via
`checkf` naming `T` when the facility yields null) and then
`CopyTypeInfo(self, &other)` copies `MainType`, `ValidTypes`,
`CopyConstruct` and `Destruct` from the source. -/
def FAny.copyCtor (hp : FHeap) (other : FAny) : Except FCrash (FHeap × FAny) :=
  match other.Storage with
  | none => .ok (hp, FAny.empty)
  | some addr =>
    match other.CopyConstruct with
    | none => .error .unboundClosureCall
    | some c =>
      match hp.read addr with
      | none => .error .invalidDereference
      | some o =>
        if c.canCopy then
          let r := hp.alloc { o with copyCount := o.copyCount + 1 }
          .ok (r.2,
            { Storage := some r.1
              MainType := other.MainType
              Destruct := other.Destruct
              CopyConstruct := other.CopyConstruct
              ValidTypes := other.ValidTypes })
        else .error (.copyConstructFailed c.typeHash)

/-- `FAny::FAny(FAny&& other)` (Any.cpp): transfer `Storage`, `MainType`,
both closures and `ValidTypes`, then `other.Reset()`.  Returns
(destination, residual source). -/
def FAny.moveCtor (other : FAny) : FAny × FAny :=
  (⟨other.Storage, other.MainType, other.Destruct, other.CopyConstruct, other.ValidTypes⟩,
   FAny.empty)

/-- `FAny` move construction threaded through the heap: the constructor body
contains no heap operation at all (in particular it never runs the payload's
own move constructor), so the heap passes through unchanged. -/
def FAny.moveCtorH (hp : FHeap) (other : FAny) : FHeap × FAny × FAny :=
  (hp, FAny.moveCtor other)

/-- A `TMap<FTypeHash, V>` modelled as an association list with unique keys
(insertion order kept; iteration order of the C++ map is unspecified, which
matters to no claim below). -/
abbrev TMap (α : Type) := List (Nat × α)

/-- `TMap::Contains`. -/
def TMap.Contains {α : Type} (m : TMap α) (k : Nat) : Bool :=
  m.any (fun p => p.1 == k)

/-- `TMap::Find` returning an optional value instead of a nullable pointer. -/
def TMap.FindOpt {α : Type} (m : TMap α) (k : Nat) : Option α :=
  (m.find? (fun p => p.1 == k)).map Prod.snd

/-- In-place overwrite of the value stored under an existing key
(`map[k] = v` style mutation; identity when the key is absent). -/
def TMap.SetAt {α : Type} (m : TMap α) (k : Nat) (v : α) : TMap α :=
  m.map (fun p => if p.1 == k then (k, v) else p)

/-- `TMap::Remove`. -/
def TMap.RemoveAt {α : Type} (m : TMap α) (k : Nat) : TMap α :=
  m.filter (fun p => !(p.1 == k))

/-- Data captured by one `IComposable::FComponentLogistics` entry: the
closures' captured concrete component type (its hash), which of the
copy/move hooks the component actually implements (the `if constexpr`
branches baked into the closures), and the captured `unboxedComponent`
pointer (heap address of the component at `AddComponent` time). -/
structure FComponentLogistics where
  typeHash : Nat
  copyAware : Bool
  moveAware : Bool
  unboxed : Nat
deriving DecidableEq

/-- `Mcro::Composition::IComposable`. -/
structure IComposable where
  LastAddedComponentHash : Nat
  Components : TMap FAny
  ComponentLogistics : TMap FComponentLogistics
  ComponentAliases : TMap (List Nat)
deriving DecidableEq

/-- A default-constructed (and also fully reset) composable. -/
def IComposable.empty : IComposable := ⟨0, [], [], []⟩

/-- `IComposable::HasExactComponent`. -/
def IComposable.HasExactComponent (s : IComposable) (typeHash : Nat) : Bool :=
  TMap.Contains s.Components typeHash

/-- `IComposable::HasComponentAliasUnchecked`. -/
def IComposable.HasComponentAliasUnchecked (s : IComposable) (typeHash : Nat) : Bool :=
  TMap.Contains s.ComponentAliases typeHash

/-- `IComposable::HasComponentAlias`: self-healing check.  Prunes from the
alias entry every backing hash no longer present in `Components`
(`RemoveAll` keeps hashes still in the map), removes the whole entry if it
became empty, and reports whether a live alias remains.  The maps are
`mutable`, so this runs even on `const` lookups; the updated state is
returned alongside the answer. -/
def IComposable.HasComponentAlias (s : IComposable) (typeHash : Nat) :
    Bool × IComposable :=
  match TMap.FindOpt s.ComponentAliases typeHash with
  | none => (false, s)
  | some components =>
    let pruned := components.filter (fun i => TMap.Contains s.Components i)
    if pruned.isEmpty then
      (false, { s with ComponentAliases := TMap.RemoveAt s.ComponentAliases typeHash })
    else
      (true, { s with ComponentAliases := TMap.SetAt s.ComponentAliases typeHash pruned })

/-- `IComposable::AddComponentAlias(mainType, validAs)`: append `mainType`
to the alias entry of `validAs`, creating the entry when absent. -/
def IComposable.AddComponentAlias (s : IComposable) (mainType validAs : Nat) : IComposable :=
  if s.HasComponentAliasUnchecked validAs then
    let grown := (TMap.FindOpt s.ComponentAliases validAs).getD [] ++ [mainType]
    { s with ComponentAliases := TMap.SetAt s.ComponentAliases validAs grown }
  else
    { s with ComponentAliases := s.ComponentAliases ++ [(validAs, [mainType])] }

/-- `IComposable::GetExactComponent`: a single-element view of the
component stored under exactly `typeHash`, or an empty view.  Pointers
`FAny*` into the `Components` map are represented by their keys (one key
per slot). -/
def IComposable.GetExactComponent (s : IComposable) (typeHash : Nat) : List Nat :=
  if s.HasExactComponent typeHash then [typeHash] else []

/-- `IComposable::GetAliasedComponents`: after the self-healing
`HasComponentAlias` check, a view of `ComponentAliases[typeHash]` mapped
through `Components.Find` (represented by the backing keys themselves). -/
def IComposable.GetAliasedComponents (s : IComposable) (typeHash : Nat) :
    List Nat × IComposable :=
  match s.HasComponentAlias typeHash with
  | (true, s1) => ((TMap.FindOpt s1.ComponentAliases typeHash).getD [], s1)
  | (false, s1) => ([], s1)

/-- `IComposable::GetComponentsDynamic`: the exact match concatenated with
the alias matches. -/
def IComposable.GetComponentsDynamic (s : IComposable) (typeHash : Nat) :
    List Nat × IComposable :=
  let aliased := s.GetAliasedComponents typeHash
  (s.GetExactComponent typeHash ++ aliased.1, aliased.2)

/-- `IComposable::GetComponents<T>`: `GetComponentsDynamic(TTypeHash<T>)`
with each boxed component filtered through `FAny::TryGet<T>`; the resulting
pointers are the components' storage addresses. -/
def IComposable.GetComponents (s : IComposable) (t : FType) :
    List Nat × IComposable :=
  let dyn := s.GetComponentsDynamic t.Hash
  (dyn.1.filterMap (fun k => (TMap.FindOpt dyn.2.Components k).bind (fun a => a.TryGet t)),
   dyn.2)

/-- `IComposable::TryGet<T>`: first element of `GetComponents<T>`, or null. -/
def IComposable.TryGet (s : IComposable) (t : FType) :
    Option Nat × IComposable :=
  let comps := s.GetComponents t
  (comps.1.head?, comps.2)

/-- `IComposable::AddComponent<MainType>(newComponent, facilities)`:
crash on a null pointer; crash (naming `MainType`) when an exact-type
component already exists; otherwise box the pointer in an `FAny`, record
`LastAddedComponentHash`, register every explicitly declared base of
`MainType` as an alias, and, when the component is copy- and/or move-aware,
record a logistics entry capturing the unboxed pointer.  `bases` is the
flattened explicit base list of `MainType`; `canCopy` is whether the bound
copy facility can produce a copy.  The `OnComponentAdded` hook and the
`OnCreatedAt` callback mutate neither the composable nor the heap and are
not modelled. -/
def IComposable.AddComponent (s : IComposable) (t : FType) (bases : List FType)
    (canCopy copyAware moveAware : Bool) (newComponent : Option Nat) :
    Except FCrash IComposable :=
  match newComponent with
  | none => .error .nullComponent
  | some addr =>
    if s.HasExactComponent t.Hash then .error (.duplicateComponent t.Hash)
    else
      let s1 : IComposable :=
        { s with
          Components := s.Components ++ [(t.Hash, FAny.wrap addr t canCopy bases)]
          LastAddedComponentHash := t.Hash }
      let s2 := bases.foldl (fun acc b => acc.AddComponentAlias t.Hash b.Hash) s1
      let s3 :=
        if copyAware || moveAware then
          { s2 with ComponentLogistics :=
              s2.ComponentLogistics ++ [(t.Hash, ⟨t.Hash, copyAware, moveAware, addr⟩)] }
        else s2
      .ok s3

/-- The logistics `Copy` closure from `AddComponent`: when the component is
copy-aware, `TryGet<MainType>` on the passed boxed component (crashing,
naming `MainType`, when that yields null) and invoke `OnCopiedAt` on the
result with the target owner and the captured unboxed source component. -/
def FComponentLogistics.runCopy (l : FComponentLogistics) (targetOwner : Nat)
    (targetBoxedComponent : FAny) : Except FCrash (List FEvent) :=
  if l.copyAware then
    match targetBoxedComponent.TryGetHash l.typeHash with
    | none => .error (.copyTargetIncompatible l.typeHash)
    | some receiver => .ok [FEvent.copiedAt receiver targetOwner l.unboxed]
  else .ok []

/-- The logistics `Move` closure from `AddComponent`: when the component is
move-aware, invoke `OnMovedAt` on the captured unboxed component with the
target owner. -/
def FComponentLogistics.runMove (l : FComponentLogistics) (targetOwner : Nat) : List FEvent :=
  if l.moveAware then [FEvent.movedAt l.unboxed targetOwner] else []

/-- The `TMap` element-wise copy performed by the `Components(other.Components)`
member initializer of the `IComposable` copy constructor: each `FAny` is
copied through `FAny::FAny(FAny const&)`. -/
def IComposable.copyComponents (hp : FHeap) :
    TMap FAny → Except FCrash (FHeap × TMap FAny)
  | [] => .ok (hp, [])
  | (k, a) :: rest =>
    match FAny.copyCtor hp a with
    | .error e => .error e
    | .ok (hp1, a1) =>
      match IComposable.copyComponents hp1 rest with
      | .error e => .error e
      | .ok (hp2, rest1) => .ok (hp2, (k, a1) :: rest1)

/-- `IComposable::NotifyCopyComponents(other)`: for every entry of the (new
owner's, freshly copied) `ComponentLogistics`, invoke
`logistics.Copy(this, other.Components[key])` — note that the boxed
component passed is looked up in the SOURCE's `Components` map
(`other.Components`), and `TMap::operator[]` on a missing key is fatal. -/
def IComposable.NotifyCopyComponents (selfOwner : Nat) (srcComponents : TMap FAny) :
    TMap FComponentLogistics → Except FCrash (List FEvent)
  | [] => .ok []
  | (key, logistics) :: rest =>
    match TMap.FindOpt srcComponents key with
    | none => .error (.missingMapKey key)
    | some box =>
      match logistics.runCopy selfOwner box with
      | .error e => .error e
      | .ok evs =>
        match IComposable.NotifyCopyComponents selfOwner srcComponents rest with
        | .error e => .error e
        | .ok evs2 => .ok (evs ++ evs2)

/-- `IComposable::IComposable(IComposable const& other)`: copy all four
members (copying each boxed component through `FAny`'s copy contract), then
`NotifyCopyComponents(other)`.  `selfOwner` stands for the `this` pointer of
the copy under construction. -/
def IComposable.copyCtor (hp : FHeap) (other : IComposable) (selfOwner : Nat) :
    Except FCrash (FHeap × IComposable × List FEvent) :=
  match IComposable.copyComponents hp other.Components with
  | .error e => .error e
  | .ok (hp1, comps) =>
    let self : IComposable :=
      ⟨other.LastAddedComponentHash, comps, other.ComponentLogistics, other.ComponentAliases⟩
    match IComposable.NotifyCopyComponents selfOwner other.Components self.ComponentLogistics with
    | .error e => .error e
    | .ok events => .ok (hp1, self, events)

/-- The loop body of `IComposable::NotifyMoveComponents`: invoke every
logistics entry's `Move` closure with the new owner, in map order. -/
def IComposable.runMoveLogistics (selfOwner : Nat) :
    TMap FComponentLogistics → List FEvent
  | [] => []
  | (_, logistics) :: rest =>
    logistics.runMove selfOwner ++ IComposable.runMoveLogistics selfOwner rest

/-- `IComposable::IComposable(IComposable&& other)`: move all four members
(cheap map transfers, no per-component construction), then
`NotifyMoveComponents(other)`, which fires every `Move` closure with the new
owner and then `other.ResetComponents()` — leaving the source with
`LastAddedComponentHash = 0` and all three maps empty.  Returns
(destination, residual source, events). -/
def IComposable.moveCtor (other : IComposable) (selfOwner : Nat) :
    IComposable × IComposable × List FEvent :=
  let self : IComposable :=
    ⟨other.LastAddedComponentHash, other.Components, other.ComponentLogistics,
     other.ComponentAliases⟩
  (self, IComposable.empty, IComposable.runMoveLogistics selfOwner self.ComponentLogistics)

/-! ### Association-list lemmas for the `TMap` model -/

theorem TMap.contains_of_findOpt {α : Type} {m : TMap α} {k : Nat} {v : α}
    (h : TMap.FindOpt m k = some v) : TMap.Contains m k = true := by
  induction m with
  | nil => simp [TMap.FindOpt] at h
  | cons p rest ih =>
    by_cases hk : (p.1 == k) = true
    · simp [TMap.Contains, hk]
    · simp only [TMap.FindOpt, List.find?] at h ⊢
      rw [Bool.not_eq_true] at hk
      simp only [hk] at h
      simp only [TMap.Contains, List.any_cons, hk, Bool.false_or]
      exact ih h

theorem TMap.findOpt_removeAt_self {α : Type} (m : TMap α) (k : Nat) :
    TMap.FindOpt (TMap.RemoveAt m k) k = none := by
  induction m with
  | nil => rfl
  | cons p rest ih =>
    by_cases hk : (p.1 == k) = true
    · simpa [TMap.RemoveAt, TMap.FindOpt, hk] using ih
    · rw [Bool.not_eq_true] at hk
      simpa [TMap.RemoveAt, TMap.FindOpt, List.find?, hk] using ih

theorem TMap.contains_setAt {α : Type} (m : TMap α) (k : Nat) (v : α) :
    TMap.Contains (TMap.SetAt m k v) k = TMap.Contains m k := by
  induction m with
  | nil => rfl
  | cons p rest ih =>
    show ((if (p.1 == k) = true then (k, v) else p).1 == k
        || TMap.Contains (TMap.SetAt rest k v) k) = (p.1 == k || TMap.Contains rest k)
    rw [ih]
    by_cases hk : (p.1 == k) = true
    · simp [hk]
    · rw [Bool.not_eq_true] at hk
      simp [hk]

theorem TMap.findOpt_setAt_self {α : Type} {m : TMap α} {k : Nat}
    (h : TMap.Contains m k = true) (v : α) :
    TMap.FindOpt (TMap.SetAt m k v) k = some v := by
  induction m with
  | nil => simp [TMap.Contains] at h
  | cons p rest ih =>
    by_cases hk : (p.1 == k) = true
    · simp [TMap.SetAt, TMap.FindOpt, List.find?, hk]
    · rw [Bool.not_eq_true] at hk
      simp only [TMap.Contains, List.any_cons, hk, Bool.false_or] at h
      simpa [TMap.SetAt, TMap.FindOpt, List.find?, hk] using ih h

theorem TMap.findOpt_append_right {α : Type} {m : TMap α} {k : Nat}
    (h : TMap.Contains m k = false) (m2 : TMap α) :
    TMap.FindOpt (m ++ m2) k = TMap.FindOpt m2 k := by
  induction m with
  | nil => rfl
  | cons p rest ih =>
    simp only [TMap.Contains, List.any_cons, Bool.or_eq_false_iff] at h
    simpa [TMap.FindOpt, List.find?, h.1] using ih h.2

theorem TMap.findOpt_append_left {α : Type} {m : TMap α} {k k0 : Nat} {v : α}
    (h : (k0 == k) = false) (m2 : TMap α) :
    TMap.FindOpt (m ++ [(k0, v)] ++ m2) k = TMap.FindOpt (m ++ m2) k := by
  induction m with
  | nil => simp [TMap.FindOpt, List.find?, h]
  | cons p rest ih =>
    by_cases hk : (p.1 == k) = true
    · simp [TMap.FindOpt, List.find?, hk]
    · rw [Bool.not_eq_true] at hk
      simpa [TMap.FindOpt, List.find?, hk] using ih

theorem TMap.contains_append_single_self {α : Type} (m : TMap α) (k : Nat) (v : α) :
    TMap.Contains (m ++ [(k, v)]) k = true := by
  simp [TMap.Contains, List.any_append]

/-- Filtering twice with the same predicate equals filtering once. -/
theorem filter_twice_eq {α : Type} (p : α → Bool) (l : List α) :
    (l.filter p).filter p = l.filter p := by
  induction l with
  | nil => rfl
  | cons a rest ih =>
    by_cases ha : p a = true
    · simp [List.filter, ha, ih]
    · rw [Bool.not_eq_true] at ha
      simp [List.filter, ha, ih]

/-! ### C8 — `FType::IsCompatibleWith` -/

theorem isCompatibleWith_or_form (x y : FType) :
    FType.IsCompatibleWith x y =
      ((x.Hash == y.Hash) || y.BaseTypeHashes.any (fun base => base == x.Hash)
        || x.BaseTypeHashes.any (fun base => base == y.Hash)) := by
  unfold FType.IsCompatibleWith
  by_cases h1 : (x.Hash == y.Hash) = true
  · simp [h1]
  · rw [Bool.not_eq_true] at h1
    by_cases h2 : y.BaseTypeHashes.any (fun base => base == x.Hash) = true
    · simp [h1, h2]
    · rw [Bool.not_eq_true] at h2
      by_cases h3 : x.BaseTypeHashes.any (fun base => base == y.Hash) = true
      · simp [h1, h2, h3]
      · rw [Bool.not_eq_true] at h3
        simp [h1, h2, h3]

theorem isCompatibleWith_iff (x y : FType) :
    FType.IsCompatibleWith x y = true ↔
      x.Hash = y.Hash ∨ x.Hash ∈ y.BaseTypeHashes ∨ y.Hash ∈ x.BaseTypeHashes := by
  rw [isCompatibleWith_or_form]
  simp [List.any_eq_true, beq_iff_eq, or_assoc]

/-- C8: `a.IsCompatibleWith(b)` is true exactly when the hashes are equal,
or `a`'s hash is listed among `b`'s base hashes, or `b`'s hash is listed
among `a`'s base hashes; consequently compatibility is symmetric and
reflexive. -/
theorem FType.isCompatibleWith_spec (a b : FType) :
    (FType.IsCompatibleWith a b = true ↔
      a.Hash = b.Hash ∨ a.Hash ∈ b.BaseTypeHashes ∨ b.Hash ∈ a.BaseTypeHashes) ∧
    FType.IsCompatibleWith a b = FType.IsCompatibleWith b a ∧
    FType.IsCompatibleWith a a = true := by
  refine ⟨isCompatibleWith_iff a b, ?_, (isCompatibleWith_iff a a).mpr (Or.inl rfl)⟩
  cases h1 : FType.IsCompatibleWith a b with
  | true =>
    have := (isCompatibleWith_iff a b).mp h1
    symm
    refine (isCompatibleWith_iff b a).mpr ?_
    rcases this with h | h | h
    · exact Or.inl h.symm
    · exact Or.inr (Or.inr h)
    · exact Or.inr (Or.inl h)
  | false =>
    cases h2 : FType.IsCompatibleWith b a with
    | true =>
      have := (isCompatibleWith_iff b a).mp h2
      have hcontra : FType.IsCompatibleWith a b = true := by
        refine (isCompatibleWith_iff a b).mpr ?_
        rcases this with h | h | h
        · exact Or.inl h.symm
        · exact Or.inr (Or.inr h)
        · exact Or.inr (Or.inl h)
      rw [h1] at hcontra
      exact absurd hcontra (by simp)
    | false => rfl

/-- C8 witness: two distinct identities related through a base-hash entry. -/
theorem FType.isCompatibleWith_spec_witness :
    FType.IsCompatibleWith ⟨1, [2]⟩ ⟨2, []⟩ = true :=
  ((FType.isCompatibleWith_spec ⟨1, [2]⟩ ⟨2, []⟩).1).mpr (Or.inr (Or.inr (by simp)))

/-! ### C9 — base-hash capacity of the `FType` constructor -/

theorem foldl_base_capture (bases : List Nat) (acc : List Nat)
    (h : acc.length ≤ MaxBaseCount) :
    bases.foldl (fun acc b => if MaxBaseCount ≤ acc.length then acc else acc ++ [b]) acc
      = acc ++ bases.take (MaxBaseCount - acc.length) := by
  induction bases generalizing acc with
  | nil => simp
  | cons b bs ih =>
    by_cases hc : MaxBaseCount ≤ acc.length
    · have hlen : MaxBaseCount - acc.length = 0 := by omega
      have hlen2 : acc.length = MaxBaseCount := by omega
      simp only [List.foldl_cons, if_pos hc]
      rw [ih acc h, hlen2]
      simp
    · have hlt : acc.length < MaxBaseCount := by omega
      simp only [List.foldl_cons, if_neg hc]
      rw [ih (acc ++ [b]) (by simp; omega)]
      have harith : MaxBaseCount - acc.length = (MaxBaseCount - (acc ++ [b]).length) + 1 := by
        simp; omega
      rw [harith, List.take_succ_cons]
      simp

/-- C9: the `FType` constructor records at most `MaxBaseCount` (64) base
hashes: the recorded list is exactly the first 64 entries of the flattened
explicit base list (everything beyond the 64th is silently dropped), its
length never exceeds the array capacity, and construction always succeeds. -/
theorem FType.ofBases_capacity (h : Nat) (bases : List Nat) :
    (FType.ofBases h bases).Hash = h ∧
    (FType.ofBases h bases).BaseTypeHashes = bases.take MaxBaseCount ∧
    (FType.ofBases h bases).BaseTypeHashes.length ≤ MaxBaseCount := by
  have hfold := foldl_base_capture bases [] (by simp)
  refine ⟨rfl, ?_, ?_⟩
  · show bases.foldl _ [] = _
    simpa using hfold
  · show (bases.foldl _ []).length ≤ MaxBaseCount
    rw [show bases.foldl _ [] = bases.take MaxBaseCount by simpa using hfold]
    simpa using List.length_take_le MaxBaseCount bases

/-! ### C5 — `FAny` move construction -/

/-- C5: moving an `FAny` transfers the storage pointer, both closures and
the alias set verbatim, performs no heap operation whatsoever (so the
payload's own move constructor is never invoked and no move counter can
change), and resets the source to the empty state: null storage, unbound
closures, empty `ValidTypes`, `IsValid() == false`. -/
theorem FAny.move_transfer_spec (hp : FHeap) (a : FAny) :
    (FAny.moveCtorH hp a).1 = hp ∧
    (FAny.moveCtor a).1.Storage = a.Storage ∧
    (FAny.moveCtor a).1.MainType = a.MainType ∧
    (FAny.moveCtor a).1.Destruct = a.Destruct ∧
    (FAny.moveCtor a).1.CopyConstruct = a.CopyConstruct ∧
    (FAny.moveCtor a).1.ValidTypes = a.ValidTypes ∧
    (FAny.moveCtor a).2.Storage = none ∧
    (FAny.moveCtor a).2.Destruct = none ∧
    (FAny.moveCtor a).2.CopyConstruct = none ∧
    (FAny.moveCtor a).2.ValidTypes = [] ∧
    (FAny.moveCtor a).2.IsValid = false :=
  ⟨rfl, rfl, rfl, rfl, rfl, rfl, rfl, rfl, rfl, rfl, rfl⟩

/-! ### `FAny.wrap` field lemmas -/

theorem addAlias_fields (a : FAny) (t : FType) :
    (a.AddAlias t).Storage = a.Storage ∧
    (a.AddAlias t).MainType = a.MainType ∧
    (a.AddAlias t).Destruct = a.Destruct ∧
    (a.AddAlias t).CopyConstruct = a.CopyConstruct := by
  unfold FAny.AddAlias
  split <;> exact ⟨rfl, rfl, rfl, rfl⟩

theorem foldl_addAlias_fields (bases : List FType) (a : FAny) :
    ((bases.foldl FAny.AddAlias a).Storage = a.Storage ∧
     (bases.foldl FAny.AddAlias a).MainType = a.MainType ∧
     (bases.foldl FAny.AddAlias a).Destruct = a.Destruct ∧
     (bases.foldl FAny.AddAlias a).CopyConstruct = a.CopyConstruct) := by
  induction bases generalizing a with
  | nil => exact ⟨rfl, rfl, rfl, rfl⟩
  | cons b bs ih =>
    have h1 := addAlias_fields a b
    have h2 := ih (a.AddAlias b)
    exact ⟨h2.1.trans h1.1, h2.2.1.trans h1.2.1,
           h2.2.2.1.trans h1.2.2.1, h2.2.2.2.trans h1.2.2.2⟩

theorem foldl_addAlias_mem (bases : List FType) (a : FAny) (p : FType → Bool)
    (h : a.ValidTypes.any p = true) :
    (bases.foldl FAny.AddAlias a).ValidTypes.any p = true := by
  induction bases generalizing a with
  | nil => exact h
  | cons b bs ih =>
    apply ih
    unfold FAny.AddAlias
    split
    · exact h
    · simp [List.any_append, h]

theorem wrap_storage (addr : Nat) (t : FType) (canCopy : Bool) (bases : List FType) :
    (FAny.wrap addr t canCopy bases).Storage = some addr :=
  (foldl_addAlias_fields bases _).1

theorem wrap_copyConstruct (addr : Nat) (t : FType) (canCopy : Bool) (bases : List FType) :
    (FAny.wrap addr t canCopy bases).CopyConstruct = some ⟨t.Hash, canCopy⟩ :=
  (foldl_addAlias_fields bases _).2.2.2

/-! ### C2 — `FAny::TryGet` on a wrapped value -/

/-- C2: for an `FAny` wrapping the heap value at `addr` with concrete type
`t`, `TryGet` at `t` returns the original stored pointer, and for every
type whose identity is not in `ValidTypes`, `TryGet` returns null (the
lookup is a total membership test, so it cannot crash or throw). -/
theorem FAny.tryGet_wrap_spec (addr : Nat) (t : FType) (canCopy : Bool)
    (bases : List FType) :
    (FAny.wrap addr t canCopy bases).TryGet t = some addr ∧
    ∀ u : FType,
      (FAny.wrap addr t canCopy bases).ValidTypes.any (fun v => v.Hash == u.Hash) = false →
      (FAny.wrap addr t canCopy bases).TryGet u = none := by
  constructor
  · have hmem : (FAny.wrap addr t canCopy bases).ValidTypes.any
        (fun v => v.Hash == t.Hash) = true := by
      apply foldl_addAlias_mem
      simp
    unfold FAny.TryGet FAny.TryGetHash
    rw [hmem]
    simp [wrap_storage]
  · intro u hu
    unfold FAny.TryGet FAny.TryGetHash
    rw [hu]
    simp

/-- C2 witness: a wrapped value at address 0 with type hash 7 is retrieved
by its own identity and misses at an unrelated identity with hash 9. -/
theorem FAny.tryGet_wrap_spec_witness :
    (FAny.wrap 0 ⟨7, []⟩ true []).TryGet ⟨7, []⟩ = some 0 ∧
    (FAny.wrap 0 ⟨7, []⟩ true []).TryGet ⟨9, []⟩ = none := by
  refine ⟨(FAny.tryGet_wrap_spec 0 ⟨7, []⟩ true []).1, ?_⟩
  exact (FAny.tryGet_wrap_spec 0 ⟨7, []⟩ true []).2 ⟨9, []⟩ (by decide)

/-! ### C3 — copying and the `CopyConstruct` closure -/

/-- C3 counterexample: a default-constructed `FAny` has an unbound
`CopyConstruct` closure, yet copy-constructing from it is NOT fatal — the
copy constructor skips the closure entirely because the source is invalid
and silently produces another empty `FAny`. -/
theorem FAny.copy_unbound_not_fatal :
    FAny.empty.CopyConstruct = none ∧
    FAny.copyCtor ⟨[]⟩ FAny.empty = .ok (⟨[]⟩, FAny.empty) :=
  ⟨rfl, rfl⟩

/-- C3 (amended): copying a VALID `FAny` whose bound copy facility cannot
produce a copy (the payload type is not copy-constructible) is a fatal
contract violation naming the offending type; copying an invalid `FAny` —
the only state in which `CopyConstruct` is unbound — is legal and silently
yields an empty/invalid `FAny` with the heap untouched. -/
theorem FAny.copy_contract_amended (hp : FHeap) (addr : Nat) (o : FPayload)
    (t : FType) (bases : List FType) (hread : hp.read addr = some o) :
    FAny.copyCtor hp (FAny.wrap addr t false bases) =
      .error (.copyConstructFailed t.Hash) ∧
    ∀ b : FAny, b.Storage = none → FAny.copyCtor hp b = .ok (hp, FAny.empty) := by
  constructor
  · unfold FAny.copyCtor
    rw [wrap_storage, wrap_copyConstruct]
    simp [hread]
  · intro b hb
    unfold FAny.copyCtor
    rw [hb]

/-- C3 witness for the amended statement: a one-object heap, a wrapped
non-copyable payload at address 0 with type hash 7, and the empty `FAny`. -/
theorem FAny.copy_contract_amended_witness :
    FAny.copyCtor ⟨[some ⟨7, 0, 0⟩]⟩ (FAny.wrap 0 ⟨7, []⟩ false []) =
      .error (.copyConstructFailed 7) ∧
    FAny.copyCtor ⟨[some ⟨7, 0, 0⟩]⟩ FAny.empty = .ok (⟨[some ⟨7, 0, 0⟩]⟩, FAny.empty) := by
  have h := FAny.copy_contract_amended ⟨[some ⟨7, 0, 0⟩]⟩ 0 ⟨7, 0, 0⟩ ⟨7, []⟩ [] rfl
  exact ⟨h.1, h.2 FAny.empty rfl⟩

/-! ### C4 — self-healing alias lookups are idempotent -/

theorem setAt_idem {α : Type} (m : TMap α) (k : Nat) (v : α) :
    TMap.SetAt (TMap.SetAt m k v) k v = TMap.SetAt m k v := by
  induction m with
  | nil => rfl
  | cons p rest ih =>
    show (if ((if (p.1 == k) = true then (k, v) else p).1 == k) = true
          then (k, v) else if (p.1 == k) = true then (k, v) else p)
        :: TMap.SetAt (TMap.SetAt rest k v) k v
      = (if (p.1 == k) = true then (k, v) else p) :: TMap.SetAt rest k v
    rw [ih]
    by_cases hk : (p.1 == k) = true
    · simp [hk]
    · rw [Bool.not_eq_true] at hk
      simp [hk]

/-- Record update of the alias table alone (helper spelling of the
`ComponentAliases` mutations performed inside `HasComponentAlias`). -/
def withAliases (s : IComposable) (m : TMap (List Nat)) : IComposable :=
  { s with ComponentAliases := m }

theorem hasAlias_eq_none (s : IComposable) (h : Nat)
    (hf : TMap.FindOpt s.ComponentAliases h = none) :
    s.HasComponentAlias h = (false, s) := by
  unfold IComposable.HasComponentAlias
  rw [hf]

theorem hasAlias_eq_empty (s : IComposable) (h : Nat) (lst : List Nat)
    (hf : TMap.FindOpt s.ComponentAliases h = some lst)
    (hp : (lst.filter (fun i => TMap.Contains s.Components i)).isEmpty = true) :
    s.HasComponentAlias h = (false, withAliases s (TMap.RemoveAt s.ComponentAliases h)) := by
  unfold IComposable.HasComponentAlias
  rw [hf]
  simp only [hp, if_true]
  rfl

theorem hasAlias_eq_live (s : IComposable) (h : Nat) (lst pruned : List Nat)
    (hf : TMap.FindOpt s.ComponentAliases h = some lst)
    (hpr : lst.filter (fun i => TMap.Contains s.Components i) = pruned)
    (hp : pruned.isEmpty = false) :
    s.HasComponentAlias h = (true, withAliases s (TMap.SetAt s.ComponentAliases h pruned)) := by
  unfold IComposable.HasComponentAlias
  rw [hf]
  show (if ((lst.filter (fun i => TMap.Contains s.Components i)).isEmpty = true)
      then ((false, withAliases s (TMap.RemoveAt s.ComponentAliases h)) : Bool × IComposable)
      else (true, withAliases s
        (TMap.SetAt s.ComponentAliases h (lst.filter (fun i => TMap.Contains s.Components i)))))
    = (true, withAliases s (TMap.SetAt s.ComponentAliases h pruned))
  rw [hpr, hp]
  simp

theorem hasAlias_components (s : IComposable) (h : Nat) :
    (s.HasComponentAlias h).2.Components = s.Components := by
  unfold IComposable.HasComponentAlias
  cases hf : TMap.FindOpt s.ComponentAliases h with
  | none => rfl
  | some lst =>
    dsimp only
    split <;> rfl

theorem getAliased_eq_false (s s1 : IComposable) (h : Nat)
    (hh : s.HasComponentAlias h = (false, s1)) :
    s.GetAliasedComponents h = ([], s1) := by
  unfold IComposable.GetAliasedComponents
  rw [hh]

theorem getAliased_eq_true (s s1 : IComposable) (h : Nat) (lst : List Nat)
    (hh : s.HasComponentAlias h = (true, s1))
    (hfind : TMap.FindOpt s1.ComponentAliases h = some lst) :
    s.GetAliasedComponents h = (lst, s1) := by
  unfold IComposable.GetAliasedComponents
  rw [hh]
  show ((TMap.FindOpt s1.ComponentAliases h).getD [], s1) = (lst, s1)
  rw [hfind]
  rfl

theorem getAliased_components (s : IComposable) (h : Nat) :
    (s.GetAliasedComponents h).2.Components = s.Components := by
  have hc := hasAlias_components s h
  unfold IComposable.GetAliasedComponents
  cases hh : s.HasComponentAlias h with
  | mk b s1 =>
    rw [hh] at hc
    cases b
    · exact hc
    · exact hc

/-- A state already in post-self-healing form (its alias entry for `h` is
exactly its own pruned list) is a fixed point of `GetAliasedComponents`. -/
theorem getAliased_post (s1 : IComposable) (h : Nat) (pruned : List Nat)
    (hf2 : TMap.FindOpt s1.ComponentAliases h = some pruned)
    (hpr : pruned.filter (fun i => TMap.Contains s1.Components i) = pruned)
    (hset : TMap.SetAt s1.ComponentAliases h pruned = s1.ComponentAliases)
    (hp : pruned.isEmpty = false) :
    s1.GetAliasedComponents h = (pruned, s1) := by
  have hhc := hasAlias_eq_live s1 h pruned pruned hf2 hpr hp
  rw [hset] at hhc
  have hhc2 : s1.HasComponentAlias h = (true, s1) := hhc
  exact getAliased_eq_true s1 s1 h pruned hhc2 hf2

theorem getAliased_idem (s : IComposable) (h : Nat) :
    (s.GetAliasedComponents h).2.GetAliasedComponents h = s.GetAliasedComponents h := by
  cases hf : TMap.FindOpt s.ComponentAliases h with
  | none =>
    have h1 : s.GetAliasedComponents h = ([], s) :=
      getAliased_eq_false s s h (hasAlias_eq_none s h hf)
    rw [h1]
    exact h1
  | some lst =>
    cases hp : (lst.filter (fun i => TMap.Contains s.Components i)).isEmpty with
    | true =>
      have h1 := getAliased_eq_false s _ h (hasAlias_eq_empty s h lst hf hp)
      rw [h1]
      have hf2 : TMap.FindOpt
          (withAliases s (TMap.RemoveAt s.ComponentAliases h)).ComponentAliases h = none :=
        TMap.findOpt_removeAt_self s.ComponentAliases h
      exact getAliased_eq_false _ _ h (hasAlias_eq_none _ h hf2)
    | false =>
      have hcont : TMap.Contains s.ComponentAliases h = true :=
        TMap.contains_of_findOpt hf
      have hlive := hasAlias_eq_live s h lst
        (lst.filter (fun i => TMap.Contains s.Components i)) hf rfl hp
      have hf2 : TMap.FindOpt
          (withAliases s (TMap.SetAt s.ComponentAliases h
            (lst.filter (fun i => TMap.Contains s.Components i)))).ComponentAliases h
          = some (lst.filter (fun i => TMap.Contains s.Components i)) :=
        TMap.findOpt_setAt_self hcont _
      have h1 := getAliased_eq_true s _ h
        (lst.filter (fun i => TMap.Contains s.Components i)) hlive hf2
      rw [h1]
      refine getAliased_post _ h _ hf2 ?_ ?_ hp
      · exact filter_twice_eq _ lst
      · exact setAt_idem s.ComponentAliases h _

theorem getExact_congr (s1 s2 : IComposable) (h : Nat)
    (hc : s1.Components = s2.Components) :
    s1.GetExactComponent h = s2.GetExactComponent h := by
  unfold IComposable.GetExactComponent IComposable.HasExactComponent
  rw [hc]

theorem gcd_idem (s : IComposable) (h : Nat) :
    (s.GetComponentsDynamic h).2.GetComponentsDynamic h = s.GetComponentsDynamic h := by
  have hsnd : (s.GetComponentsDynamic h).2 = (s.GetAliasedComponents h).2 := rfl
  show ((s.GetComponentsDynamic h).2.GetExactComponent h ++
        ((s.GetComponentsDynamic h).2.GetAliasedComponents h).1,
        ((s.GetComponentsDynamic h).2.GetAliasedComponents h).2)
      = (s.GetExactComponent h ++ (s.GetAliasedComponents h).1,
         (s.GetAliasedComponents h).2)
  rw [hsnd, getAliased_idem,
      getExact_congr (s.GetAliasedComponents h).2 s h (getAliased_components s h)]

theorem gcd_components (s : IComposable) (h : Nat) :
    (s.GetComponentsDynamic h).2.Components = s.Components :=
  getAliased_components s h

/-- C4: with no mutation in between, a second `GetComponents<T>()` call
returns exactly the same components (and leaves the composable in the same
state), even though the first call may have pruned dead alias-table entries
while self-healing inside `HasComponentAlias`. -/
theorem IComposable.getComponents_idempotent (s : IComposable) (t : FType) :
    (s.GetComponents t).2.GetComponents t = s.GetComponents t := by
  show ((((s.GetComponentsDynamic t.Hash).2.GetComponentsDynamic t.Hash).1.filterMap
        (fun k => (TMap.FindOpt
          ((s.GetComponentsDynamic t.Hash).2.GetComponentsDynamic t.Hash).2.Components k).bind
          (fun a => a.TryGet t))),
       ((s.GetComponentsDynamic t.Hash).2.GetComponentsDynamic t.Hash).2)
      = s.GetComponents t
  rw [gcd_idem s t.Hash]
  rfl

/-! ### C10 — the exact-type component comes first -/

/-- C10: when a composable holds a component under exactly the queried type
hash, `GetComponentsDynamic` yields that exact component first (before any
alias matches), so `TryGet<T>` returns the exact-type component's storage
whenever the exact component is retrievable as `T`. -/
theorem IComposable.tryGet_prefers_exact (s : IComposable) (t : FType) (a : FAny) (p : Nat)
    (h1 : TMap.FindOpt s.Components t.Hash = some a)
    (h2 : a.TryGet t = some p) :
    (s.GetComponentsDynamic t.Hash).1.head? = some t.Hash ∧
    (s.TryGet t).1 = some p := by
  have hc : s.HasExactComponent t.Hash = true := TMap.contains_of_findOpt h1
  have hex : s.GetExactComponent t.Hash = [t.Hash] := by
    simp [IComposable.GetExactComponent, hc]
  have hdyn1 : (s.GetComponentsDynamic t.Hash).1
      = t.Hash :: (s.GetAliasedComponents t.Hash).1 := by
    show s.GetExactComponent t.Hash ++ (s.GetAliasedComponents t.Hash).1 = _
    rw [hex]
    rfl
  refine ⟨by rw [hdyn1]; rfl, ?_⟩
  show ((s.GetComponentsDynamic t.Hash).1.filterMap
      (fun k => (TMap.FindOpt (s.GetComponentsDynamic t.Hash).2.Components k).bind
        (fun a => a.TryGet t))).head? = some p
  rw [hdyn1]
  have hf : (TMap.FindOpt (s.GetComponentsDynamic t.Hash).2.Components t.Hash).bind
      (fun a => a.TryGet t) = some p := by
    rw [gcd_components, h1]
    exact h2
  simp only [List.filterMap_cons]
  rw [hf]
  rfl

/-- C10 witness: a composable holding a single component of exact type hash
5 stored at address 0; both clauses of the theorem hold there. -/
theorem IComposable.tryGet_prefers_exact_witness :
    (((⟨5, [(5, FAny.wrap 0 ⟨5, []⟩ true [])], [], []⟩ : IComposable).GetComponentsDynamic
        5).1.head? = some 5) ∧
    ((⟨5, [(5, FAny.wrap 0 ⟨5, []⟩ true [])], [], []⟩ : IComposable).TryGet ⟨5, []⟩).1
      = some 0 :=
  IComposable.tryGet_prefers_exact
    ⟨5, [(5, FAny.wrap 0 ⟨5, []⟩ true [])], [], []⟩ ⟨5, []⟩
    (FAny.wrap 0 ⟨5, []⟩ true []) 0 (by decide) (by decide)

/-! ### C6 — move construction of a composable -/

theorem runMoveLogistics_eq_filterMap (selfOwner : Nat) (ls : TMap FComponentLogistics) :
    IComposable.runMoveLogistics selfOwner ls =
      ls.filterMap (fun p =>
        if p.2.moveAware then some (FEvent.movedAt p.2.unboxed selfOwner) else none) := by
  induction ls with
  | nil => rfl
  | cons p rest ih =>
    cases hm : p.2.moveAware <;>
      simp [IComposable.runMoveLogistics, FComponentLogistics.runMove, hm, ih]

/-- C6: move-constructing a composable transfers all four members to the
destination verbatim, fires exactly one `OnMovedAt(newOwner)` per move-aware
logistics entry (on that entry's component, with the new owner), and leaves
the source fully empty: all three maps cleared and
`LastAddedComponentHash = 0`. -/
theorem IComposable.move_notifies_and_empties (c : IComposable) (selfOwner : Nat) :
    (c.moveCtor selfOwner).1
      = ⟨c.LastAddedComponentHash, c.Components, c.ComponentLogistics, c.ComponentAliases⟩ ∧
    (c.moveCtor selfOwner).2.2
      = c.ComponentLogistics.filterMap (fun p =>
          if p.2.moveAware then some (FEvent.movedAt p.2.unboxed selfOwner) else none) ∧
    (c.moveCtor selfOwner).2.1.Components = [] ∧
    (c.moveCtor selfOwner).2.1.ComponentLogistics = [] ∧
    (c.moveCtor selfOwner).2.1.ComponentAliases = [] ∧
    (c.moveCtor selfOwner).2.1.LastAddedComponentHash = 0 := by
  refine ⟨rfl, ?_, rfl, rfl, rfl, rfl⟩
  exact runMoveLogistics_eq_filterMap selfOwner c.ComponentLogistics

/-! ### C7 — duplicate exact-type registration is fatal -/

theorem TMap.findOpt_single_self {α : Type} (k : Nat) (v : α) :
    TMap.FindOpt [(k, v)] k = some v := by
  simp [TMap.FindOpt, List.find?]

theorem TMap.findOpt_append_single_ne {α : Type} {k0 k : Nat} (h : (k0 == k) = false)
    (m : TMap α) (v : α) :
    TMap.FindOpt (m ++ [(k0, v)]) k = TMap.FindOpt m k := by
  induction m with
  | nil => simp [TMap.FindOpt, List.find?, h]
  | cons p rest ih =>
    by_cases hk : (p.1 == k) = true
    · simp [TMap.FindOpt, List.find?, hk]
    · rw [Bool.not_eq_true] at hk
      simpa [TMap.FindOpt, List.find?, hk] using ih

theorem addComponentAlias_fields (s : IComposable) (m v : Nat) :
    (s.AddComponentAlias m v).Components = s.Components ∧
    (s.AddComponentAlias m v).ComponentLogistics = s.ComponentLogistics := by
  unfold IComposable.AddComponentAlias
  split <;> exact ⟨rfl, rfl⟩

theorem foldl_addComponentAlias_components (bases : List FType) (t : Nat) (s : IComposable) :
    (bases.foldl (fun acc b => acc.AddComponentAlias t b.Hash) s).Components
      = s.Components := by
  induction bases generalizing s with
  | nil => rfl
  | cons b bs ih =>
    exact (ih (s.AddComponentAlias t b.Hash)).trans (addComponentAlias_fields s t b.Hash).1

theorem addComponent_ok (s : IComposable) (t : FType) (bases : List FType)
    (canCopy copyAware moveAware : Bool) (addr : Nat)
    (h : s.HasExactComponent t.Hash = false) :
    ∃ s1, s.AddComponent t bases canCopy copyAware moveAware (some addr) = .ok s1 ∧
      s1.Components = s.Components ++ [(t.Hash, FAny.wrap addr t canCopy bases)] := by
  unfold IComposable.AddComponent
  dsimp only
  rw [if_neg (show ¬(s.HasExactComponent t.Hash = true) by simp [h])]
  refine ⟨_, rfl, ?_⟩
  by_cases hcm : (copyAware || moveAware) = true
  · rw [if_pos hcm]
    exact foldl_addComponentAlias_components bases t.Hash _
  · rw [if_neg hcm]
    exact foldl_addComponentAlias_components bases t.Hash _

/-- Boolean success test for crash-or-result outcomes. -/
def isOkE {ε α : Type} : Except ε α → Bool
  | .ok _ => true
  | .error _ => false

/-- C7: `AddComponent` on a composable that already holds a component of
the same exact type is fatal with a message naming that type, and (being an
error) never replaces or duplicates the existing component; on a composable
without an exact-type match it succeeds, the new component is retrievable
under its exact type, every other key is untouched, and re-adding the same
exact type afterwards is fatal. -/
theorem IComposable.addComponent_duplicate_spec (s : IComposable) (t : FType)
    (bases bases2 : List FType) (cc ca ma cc2 ca2 ma2 : Bool) (addr addr2 : Nat) :
    (s.HasExactComponent t.Hash = true →
      s.AddComponent t bases cc ca ma (some addr)
        = .error (.duplicateComponent t.Hash)) ∧
    (s.HasExactComponent t.Hash = false →
      ∃ s1, s.AddComponent t bases cc ca ma (some addr) = .ok s1 ∧
        TMap.FindOpt s1.Components t.Hash = some (FAny.wrap addr t cc bases) ∧
        (∀ k, (k == t.Hash) = false →
          TMap.FindOpt s1.Components k = TMap.FindOpt s.Components k) ∧
        s1.AddComponent t bases2 cc2 ca2 ma2 (some addr2)
          = .error (.duplicateComponent t.Hash)) := by
  constructor
  · intro h
    unfold IComposable.AddComponent
    dsimp only
    rw [if_pos h]
  · intro h
    obtain ⟨s1, hok, hcomp⟩ := addComponent_ok s t bases cc ca ma addr h
    have hcontains : TMap.Contains s.Components t.Hash = false := h
    refine ⟨s1, hok, ?_, ?_, ?_⟩
    · rw [hcomp, TMap.findOpt_append_right hcontains]
      exact TMap.findOpt_single_self t.Hash _
    · intro k hk
      have hne : t.Hash ≠ k := by
        intro hh
        rw [hh] at hk
        simp at hk
      have hk2 : (t.Hash == k) = false := by
        simpa using hne
      rw [hcomp]
      exact TMap.findOpt_append_single_ne hk2 s.Components _
    · have hdup : s1.HasExactComponent t.Hash = true := by
        show TMap.Contains s1.Components t.Hash = true
        rw [hcomp]
        exact TMap.contains_append_single_self s.Components t.Hash _
      unfold IComposable.AddComponent
      dsimp only
      rw [if_pos hdup]

/-- Concrete composable already holding a component of exact type hash 5. -/
def dupSource : IComposable := ⟨5, [(5, FAny.wrap 0 ⟨5, []⟩ true [])], [], []⟩

/-- C7 witness: adding type hash 5 to `dupSource` again crashes naming the
type; adding it to an empty composable succeeds. -/
theorem IComposable.addComponent_duplicate_spec_witness :
    dupSource.AddComponent ⟨5, []⟩ [] true false false (some 1)
      = .error (.duplicateComponent 5) ∧
    isOkE (IComposable.empty.AddComponent ⟨5, []⟩ [] true false false (some 0)) = true := by
  have h1 := IComposable.addComponent_duplicate_spec dupSource ⟨5, []⟩ [] []
    true false false true false false 1 1
  have h2 := IComposable.addComponent_duplicate_spec IComposable.empty ⟨5, []⟩ [] []
    true false false true false false 0 0
  refine ⟨h1.1 rfl, ?_⟩
  obtain ⟨s1, hok, _⟩ := h2.2 rfl
  rw [hok]
  rfl

/-! ### C1 — copy propagation fires the callback on the wrong component -/

/-- Concrete type identity used in the copy-propagation scenario. -/
def exampleType : FType := ⟨7, []⟩

/-- The source component's payload, living at heap address 0. -/
def examplePayload : FPayload := ⟨7, 0, 0⟩

/-- Initial heap: a single live object at address 0. -/
def exampleHeap : FHeap := ⟨[some examplePayload]⟩

/-- A composable holding exactly one copy-aware component of type hash 7,
boxed around the object at address 0, with the matching logistics entry
(whose `Copy` closure captured the unboxed pointer 0). -/
def exampleSource : IComposable :=
  ⟨7, [(7, FAny.wrap 0 exampleType true [])], [(7, ⟨7, true, false, 0⟩)], []⟩

/-- The boxed component as it exists on the copy after copy construction:
its freshly copy-constructed payload lives at address 1. -/
def exampleCopiedBox : FAny := ⟨some 1, exampleType, some 7, some ⟨7, true⟩, [exampleType]⟩

/-- The composable produced by copy-constructing `exampleSource`. -/
def exampleCopy : IComposable :=
  ⟨7, [(7, exampleCopiedBox)], [(7, ⟨7, true, false, 0⟩)], []⟩

/-- The heap after the copy: the original object at 0 and its copy
(copy counter 1) at the fresh address 1. -/
def exampleHeapAfter : FHeap := ⟨[some examplePayload, some ⟨7, 1, 0⟩]⟩

/-- C1 (code-bug evidence): copy-constructing `exampleSource` as new owner 1
stores the copied component at the fresh address 1, yet the single
`OnCopiedAt` callback fires with receiver address 0 — the SOURCE component —
because `NotifyCopyComponents` passes `other.Components[key]` (the source's
boxed component) to the `Copy` closure instead of the sibling `FAny` now
present on the copy, contradicting the closure's own parameter name
`targetBoxedComponent` and its assertion message about the "destination
wrapper".  Under the claim, the event would have to be
`copiedAt 1 1 0` (receiver = the newly copied component at address 1). -/
theorem IComposable.copy_callback_targets_source_component :
    IComposable.copyCtor exampleHeap exampleSource 1
      = .ok (exampleHeapAfter, exampleCopy, [FEvent.copiedAt 0 1 0]) ∧
    (TMap.FindOpt exampleCopy.Components 7).bind FAny.Storage = some 1 ∧
    (TMap.FindOpt exampleSource.Components 7).bind FAny.Storage = some 0 :=
  ⟨rfl, rfl, rfl⟩
